import Mathlib

/-!
Verification of the backupist backup tool against its specification.

The Go source is shallowly embedded: paths are Lean `String`s manipulated
by translations of Go's `path/filepath` functions, the SQLite catalog is a
record of row lists, storage backends are lists of present object paths,
and byte-level file contents are `List Nat`.  Every definition follows the
corresponding Go function; external library behaviour (the operating
system's file calls, SQLite transactions, AES-GCM) is modelled by its
documented contract.
-/

namespace Backupist

/-- Bytes of file contents; each entry is one byte value. -/
abbrev Bytes := List Nat

/-! ## String primitives

Executable re-implementations of the Go `strings` functions the source
uses, written over `List Char` so that concrete instances reduce inside
the kernel. -/

/-- Split a character list at every occurrence of `c`, keeping empty
pieces (the behaviour of Go `strings.Split`). -/
def splitOnChar (c : Char) : List Char → List (List Char)
  | [] => [[]]
  | x :: xs =>
    let r := splitOnChar c xs
    if x = c then [] :: r
    else
      match r with
      | [] => [[x]]
      | s :: ss => (x :: s) :: ss

/-- Segments of a slash-separated path, as in Go `strings.Split(p, "/")`. -/
def strSegs (p : String) : List String :=
  (splitOnChar '/' p.data).map (fun l => String.mk l)

/-- Go `strings.HasPrefix` / `String.startsWith`. -/
def strStartsWith (s pre : String) : Bool :=
  pre.data.isPrefixOf s.data

/-- Join segments with `/` separators, as in `strings.Join(l, "/")`. -/
def joinSegs : List String → String
  | [] => ""
  | [s] => s
  | s :: rest => s ++ "/" ++ joinSegs rest

/-! ## Go `path/filepath` (unix rules)

`cleanPath` is Go's `filepath.Clean`, `filepathJoin` is `filepath.Join`
restricted to two elements (the only arity the repository uses), and
`goDir` is `filepath.Dir`.  Separator is `/`. -/

/-- One step of Go's `Clean`: process the remaining segments against the
reversed output stack.  `rooted` tells whether the path is absolute, in
which case leading `..` segments are dropped. -/
def cleanLoop (rooted : Bool) : List String → List String → List String
  | [], out => out
  | s :: rest, out =>
    if s = "" ∨ s = "." then cleanLoop rooted rest out
    else if s = ".." then
      match out with
      | [] => if rooted then cleanLoop rooted rest [] else cleanLoop rooted rest [".."]
      | o :: os =>
        if o = ".." then cleanLoop rooted rest (".." :: o :: os)
        else cleanLoop rooted rest os
    else cleanLoop rooted rest (s :: out)

/-- Go `filepath.Clean` for unix paths. -/
def cleanPath (p : String) : String :=
  let rooted := strStartsWith p "/"
  let segs := cleanLoop rooted (strSegs p) []
  let body := joinSegs segs.reverse
  if rooted then
    if body = "" then "/" else "/" ++ body
  else
    if body = "" then "." else body

/-- Go `filepath.Join` of two elements: empty elements are dropped, the
rest joined with `/` and cleaned. -/
def filepathJoin (a b : String) : String :=
  if a = "" then
    if b = "" then "" else cleanPath b
  else
    if b = "" then cleanPath a else cleanPath (a ++ "/" ++ b)

/-- Go `filepath.Dir`: everything before the final separator, cleaned. -/
def goDir (p : String) : String :=
  let rooted := strStartsWith p "/"
  let init := (strSegs p).dropLast
  let joined := joinSegs init
  if rooted ∧ joined = "" then "/" else cleanPath joined

example : cleanPath "/a/../b" = "/b" := by decide
example : filepathJoin "/dest" "../../evil" = "/evil" := by decide
example : goDir "/dst/f" = "/dst" := by decide

/-! ## Local storage backend (`LocalStorage`, source part_004)

The on-disk state under the backend is the list of paths of existing
regular files.  `os.Remove` deletes the named file and fails with a
not-exist error when it is absent; `os.Stat` reports presence. -/

/-- State of a `LocalStorage` backend: its configured root and the file
paths (absolute, already joined) that currently exist on disk. -/
structure LocalStorage where
  basePath : String
  present : List String
  deriving DecidableEq

/-- `os.Remove p`: removes the file, or fails with a not-exist error when
no file is at `p`. -/
def osRemove (fs : List String) (p : String) : Except String (List String) :=
  if p ∈ fs then .ok (fs.erase p) else .error "no such file or directory"

/-- `LocalStorage.Delete`: `return os.Remove(filepath.Join(ls.basePath, remotePath))`. -/
def LocalStorage.DeleteOp (ls : LocalStorage) (remotePath : String) :
    Except String LocalStorage :=
  match osRemove ls.present (filepathJoin ls.basePath remotePath) with
  | .error e => .error e
  | .ok fs => .ok { ls with present := fs }

/-- `LocalStorage.Exists`: `os.Stat` then `os.IsNotExist` dispatch. -/
def LocalStorage.ExistsOp (ls : LocalStorage) (remotePath : String) : Bool :=
  filepathJoin ls.basePath remotePath ∈ ls.present

/-! ## Archive extraction (`extractArchive`, source part_001)

A tar entry carries a header (name, type flag, mode) and, for regular
files, its content bytes.  The local filesystem is a list of regular
files with contents plus a list of directories.  Regular files are
opened with `os.OpenFile(path, os.O_CREATE|os.O_WRONLY, mode)` — note:
without `O_TRUNC` — so the streamed content overwrites the front of any
pre-existing file and a longer old tail survives. -/

/-- Tar entry type flag (`tar.TypeDir`, `tar.TypeReg`, anything else). -/
inductive TarType
  | dir
  | reg
  | other
  deriving DecidableEq

/-- One archive entry as `extractArchive` sees it. -/
structure TarEntry where
  name : String
  typeflag : TarType
  mode : Nat
  content : Bytes
  deriving DecidableEq

/-- Modelled local filesystem: regular files with contents, and the set
of directories that exist. -/
structure FileSys where
  files : List (String × Bytes)
  dirs : List String
  deriving DecidableEq

/-- Content of the file at `p`, if one exists. -/
def FileSys.lookup (fs : FileSys) (p : String) : Option Bytes :=
  match fs.files.filter (fun e => e.1 = p) with
  | [] => none
  | e :: _ => some e.2

/-- Result of `io.Copy` into a file opened `O_CREATE|O_WRONLY` (no
`O_TRUNC`): the new bytes overwrite the front, any longer old tail
remains. -/
def writeNoTrunc (old : Option Bytes) (c : Bytes) : Bytes :=
  match old with
  | none => c
  | some o => c ++ o.drop c.length

/-- Store content `c` at path `p`, replacing any previous entry. -/
def FileSys.store (fs : FileSys) (p : String) (c : Bytes) : FileSys :=
  { fs with files := (p, c) :: fs.files.filter (fun e => ¬ e.1 = p) }

/-- One iteration of the `extractArchive` entry loop: resolve the
destination, run the zip-slip check, then dispatch on the type flag. -/
def extractEntry (destPath : String) (fs : FileSys) (e : TarEntry) :
    Except String FileSys :=
  let fullPath := filepathJoin destPath e.name
  if ¬ strStartsWith fullPath (cleanPath destPath ++ "/") then
    .error ("небезопасный путь в архиве: " ++ e.name)
  else
    match e.typeflag with
    | .dir => .ok { fs with dirs := fullPath :: fs.dirs }
    | .reg =>
      let fs1 : FileSys := { fs with dirs := goDir fullPath :: fs.dirs }
      .ok (fs1.store fullPath (writeNoTrunc (fs1.lookup fullPath) e.content))
    | .other => .ok fs

/-- The whole `extractArchive` entry loop: returns the filesystem after
the entries processed so far, and the error that aborted extraction, if
any. -/
def extractArchive (destPath : String) (fs : FileSys) :
    List TarEntry → FileSys × Option String
  | [] => (fs, none)
  | e :: es =>
    match extractEntry destPath fs e with
    | .error msg => (fs, some msg)
    | .ok fs' => extractArchive destPath fs' es

/-- The zip-slip acceptance test the code applies: the resolved
destination is a descendant of the destination root exactly when it
extends `filepath.Clean(destPath) + "/"`. -/
def isDescendant (full destPath : String) : Bool :=
  strStartsWith full (cleanPath destPath ++ "/")

/-- Any file present after running the extraction loop was either already
present or sits at a path the zip-slip check accepted as a descendant of
the destination root. -/
theorem extractArchive_writes_inside (destPath : String) :
    ∀ (entries : List TarEntry) (fs : FileSys) (p : String) (c : Bytes),
      (p, c) ∈ (extractArchive destPath fs entries).1.files →
      (p, c) ∈ fs.files ∨ isDescendant p destPath = true := by
  intro entries
  induction entries with
  | nil => intro fs p c h; exact Or.inl h
  | cons e es ih =>
    intro fs p c h
    simp only [extractArchive] at h
    rcases hstep : extractEntry destPath fs e with msg | fs'
    · rw [hstep] at h; exact Or.inl h
    · rw [hstep] at h
      rcases ih fs' p c h with hmem | hdesc
      · -- trace the membership back through one entry step
        simp only [extractEntry] at hstep
        split at hstep
        · exact absurd hstep (by simp)
        · rename_i hchk
          rw [not_not] at hchk
          split at hstep <;> rename_i htf <;>
            simp only [Except.ok.injEq] at hstep <;> subst hstep
          · exact Or.inl hmem
          · simp only [FileSys.store, List.mem_cons, Prod.mk.injEq] at hmem
            rcases hmem with ⟨hp, _⟩ | hmem
            · right
              rw [hp]
              exact hchk
            · exact Or.inl (List.mem_of_mem_filter hmem)
          · exact Or.inl hmem
      · exact Or.inr hdesc

/-- An entry whose resolved destination fails the descendant check makes
the whole extraction loop stop with an error. -/
theorem extractArchive_bad_entry_fails (destPath : String) :
    ∀ (entries : List TarEntry) (fs : FileSys) (e : TarEntry),
      e ∈ entries →
      isDescendant (filepathJoin destPath e.name) destPath = false →
      (extractArchive destPath fs entries).2.isSome = true := by
  intro entries
  induction entries with
  | nil => intro fs e he _; cases he
  | cons e0 es ih =>
    intro fs e he hbad
    simp only [extractArchive]
    rcases List.mem_cons.mp he with he | he
    · have hchk : ¬ strStartsWith (filepathJoin destPath e0.name)
          (cleanPath destPath ++ "/") = true := by
        rw [he] at hbad
        simp only [isDescendant] at hbad
        simp [hbad]
      simp only [extractEntry, if_pos hchk]
      simp
    · rcases hstep : extractEntry destPath fs e0 with msg | fs'
      · simp [hstep]
      · simpa [hstep] using ih fs' e he hbad

/-- C4: every archive entry whose resolved destination path is not a
descendant of the destination root makes `extractArchive` fail, and no
file is ever written outside the destination root: every file of the
resulting state is either pre-existing or at a descendant path. -/
theorem extractArchive_zip_slip_safe (destPath : String) (fs : FileSys)
    (entries : List TarEntry) (e : TarEntry)
    (he : e ∈ entries)
    (hbad : isDescendant (filepathJoin destPath e.name) destPath = false) :
    (extractArchive destPath fs entries).2.isSome = true ∧
      ∀ p c, (p, c) ∈ (extractArchive destPath fs entries).1.files →
        (p, c) ∈ fs.files ∨ isDescendant p destPath = true :=
  ⟨extractArchive_bad_entry_fails destPath entries fs e he hbad,
   fun p c h => extractArchive_writes_inside destPath entries fs p c h⟩

/-- C4 witness: an archive holding the single entry `../../evil` aimed at
destination root `/backup/restore` fails extraction and writes nothing. -/
theorem extractArchive_zip_slip_safe_witness :
    (extractArchive "/backup/restore" ⟨[], []⟩
        [⟨"../../evil", TarType.reg, 420, [1]⟩]).2.isSome = true ∧
      ∀ p c,
        (p, c) ∈ (extractArchive "/backup/restore" ⟨[], []⟩
          [⟨"../../evil", TarType.reg, 420, [1]⟩]).1.files →
        (p, c) ∈ ([] : List (String × Bytes)) ∨
          isDescendant p "/backup/restore" = true :=
  extractArchive_zip_slip_safe "/backup/restore" ⟨[], []⟩
    [⟨"../../evil", TarType.reg, 420, [1]⟩]
    ⟨"../../evil", TarType.reg, 420, [1]⟩ (by decide) (by decide)

/-- C8: the extraction loop opens regular files without `O_TRUNC`, so
extracting a 1-byte entry over a pre-existing 3-byte file leaves the old
tail in place: the resulting content is the entry byte followed by the
stale bytes, not the entry content alone. -/
theorem extractArchive_no_truncate_bug :
    (extractArchive "/dst" ⟨[("/dst/f", [1, 2, 3])], ["/dst"]⟩
        [⟨"f", TarType.reg, 420, [9]⟩]).2 = none ∧
      (extractArchive "/dst" ⟨[("/dst/f", [1, 2, 3])], ["/dst"]⟩
        [⟨"f", TarType.reg, 420, [9]⟩]).1.lookup "/dst/f" = some [9, 2, 3] ∧
      ([9, 2, 3] : Bytes) ≠ [9] := by
  decide

/-- C9 counterexample: deleting an absent object on the Local backend is
an error — `Delete` returns `os.Remove`'s not-exist failure directly, so
it is not idempotent as claimed. -/
theorem localDelete_absent_errors_counterexample :
    LocalStorage.DeleteOp ⟨"/store", []⟩ "obj" =
      Except.error "no such file or directory" := by
  rfl

/-- C9 amended: `LocalStorage.Delete` forwards `os.Remove`'s result: a
present object is removed and absence of the object is reported as a
not-exist error. -/
theorem localDelete_characterization (ls : LocalStorage) (p : String) :
    (filepathJoin ls.basePath p ∈ ls.present →
      LocalStorage.DeleteOp ls p =
        Except.ok ⟨ls.basePath, ls.present.erase (filepathJoin ls.basePath p)⟩) ∧
    (filepathJoin ls.basePath p ∉ ls.present →
      LocalStorage.DeleteOp ls p = Except.error "no such file or directory") := by
  constructor
  · intro hmem
    simp only [LocalStorage.DeleteOp, osRemove, if_pos hmem]
  · intro hmem
    simp only [LocalStorage.DeleteOp, osRemove, if_neg hmem]

/-- C9 witness: both branches of the characterization at concrete
backends — a present object is removed, an absent one errors. -/
theorem localDelete_characterization_witness :
    LocalStorage.DeleteOp ⟨"/s", ["/s/a"]⟩ "a" =
        Except.ok ⟨"/s", (["/s/a"] : List String).erase (filepathJoin "/s" "a")⟩ ∧
      LocalStorage.DeleteOp ⟨"/s", []⟩ "a" =
        Except.error "no such file or directory" :=
  ⟨(localDelete_characterization ⟨"/s", ["/s/a"]⟩ "a").1 (by decide),
   (localDelete_characterization ⟨"/s", []⟩ "a").2 (by decide)⟩

/-! ## Encryption codec (`encryptFile` / `decryptFile`, source part_002)

The cipher produced by `cipher.NewGCM(aes.NewCipher(key))` is modelled by
its documented contract: `Seal` appends `overhead` bytes of tag, `Open`
inverts `Seal` under the same key and fails authentication under any
other key.  Key derivation (`pbkdf2.Key`) is an abstract function from
passphrase to key.  File contents are byte lists; the read loop of the
source consumes `min(bufferSize, remaining)` bytes per iteration, which
for byte lists is `take`/`drop`.  The loops are written with an explicit
iteration bound (`fuel`) that the callers instantiate large enough to
never run out, keeping every definition kernel-computable. -/

/-- Contract of an authenticated cipher in the shape of Go's
`cipher.AEAD`. -/
structure AEAD where
  nonceSize : Nat
  overhead : Nat
  Seal : Nat → Bytes → Bytes → Bytes
  Open : Nat → Bytes → Bytes → Option Bytes
  seal_length : ∀ k n pt, (Seal k n pt).length = pt.length + overhead
  open_seal : ∀ k n pt, Open k n (Seal k n pt) = some pt
  open_wrong_key : ∀ k k' n n' pt, k' ≠ k → Open k' n' (Seal k n pt) = none
  overhead_pos : 0 < overhead

/-- Big-endian byte increment from the last byte, with carry while the
incremented byte wraps to zero — `incrementNonce` of the source, written
on the reversed list. -/
def incNonceRev : Bytes → Bytes
  | [] => []
  | b :: rest =>
    let b' := (b + 1) % 256
    if b' = 0 then 0 :: incNonceRev rest else b' :: rest

/-- `incrementNonce`: increment the nonce bytes as a big-endian counter. -/
def incrementNonce (n : Bytes) : Bytes :=
  (incNonceRev n.reverse).reverse

/-- The 64 KiB plaintext chunk size of the encryption loop. -/
def chunkSize : Nat := 64 * 1024

/-- The chunked encryption loop: seal up to `chunkSize` plaintext bytes,
increment the nonce, continue.  `fuel` bounds the iterations and is
instantiated with the data length, which the loop never exhausts. -/
def encryptLoop (A : AEAD) (key : Nat) : Nat → Bytes → Bytes → Bytes
  | _, _, [] => []
  | 0, _, _ => []
  | fuel + 1, nonce, data =>
    A.Seal key nonce (data.take chunkSize) ++
      encryptLoop A key fuel (incrementNonce nonce) (data.drop chunkSize)

/-- `encryptFile` on in-memory bytes: write the random `nonce` as header,
then the sealed chunks under the key derived from the passphrase. -/
def encryptFile (A : AEAD) (derive : String → Nat) (password : String)
    (nonce : Bytes) (data : Bytes) : Bytes :=
  nonce ++ encryptLoop A (derive password) data.length nonce data

/-- The chunked decryption loop: read `chunkSize + overhead` ciphertext
bytes, open them, increment the nonce, continue; an authentication
failure aborts with the source's block-decryption error. -/
def decryptLoop (A : AEAD) (key : Nat) : Nat → Bytes → Bytes → Except String Bytes
  | _, _, [] => .ok []
  | 0, _, _ => .ok []
  | fuel + 1, nonce, ct =>
    match A.Open key nonce (ct.take (chunkSize + A.overhead)) with
    | none => .error "ошибка расшифровки блока"
    | some pt =>
      match decryptLoop A key fuel (incrementNonce nonce) (ct.drop (chunkSize + A.overhead)) with
      | .error e => .error e
      | .ok rest => .ok (pt ++ rest)

/-- `decryptFile` on in-memory bytes: read the header nonce (failing when
the file is shorter than a nonce), then open the chunks under the key
derived from the passphrase. -/
def decryptFile (A : AEAD) (derive : String → Nat) (password : String)
    (file : Bytes) : Except String Bytes :=
  if file.length < A.nonceSize then .error "ошибка чтения nonce"
  else
    decryptLoop A (derive password) file.length (file.take A.nonceSize)
      (file.drop A.nonceSize)

/-- Unfolding of the decryption loop on a nonempty ciphertext with fuel
left: the main branch runs. -/
theorem decryptLoop_cons_eq (A : AEAD) (key fuel : Nat) (nonce ct : Bytes)
    (h : ct ≠ []) :
    decryptLoop A key (fuel + 1) nonce ct =
      match A.Open key nonce (ct.take (chunkSize + A.overhead)) with
      | none => .error "ошибка расшифровки блока"
      | some pt =>
        match decryptLoop A key fuel (incrementNonce nonce)
            (ct.drop (chunkSize + A.overhead)) with
        | .error e => .error e
        | .ok rest => .ok (pt ++ rest) := by
  match ct with
  | [] => exact absurd rfl h
  | c :: cs => rfl

/-- The ciphertext produced by the encryption loop is at least as long as
its plaintext. -/
theorem encryptLoop_length_ge (A : AEAD) (key : Nat) :
    ∀ (fuel : Nat) (nonce data : Bytes), data.length ≤ fuel →
      data.length ≤ (encryptLoop A key fuel nonce data).length := by
  intro fuel
  induction fuel with
  | zero =>
    intro nonce data h
    have hnil : data = [] := List.length_eq_zero.mp (Nat.le_zero.mp h)
    subst hnil
    simp [encryptLoop]
  | succ f ih =>
    intro nonce data h
    match data with
    | [] => simp [encryptLoop]
    | d :: ds =>
      have hcs : chunkSize = 65536 := rfl
      simp only [encryptLoop, List.length_append, A.seal_length]
      have h1 : ((d :: ds).drop chunkSize).length ≤ f := by
        simp only [List.length_drop]
        omega
      have h2 := ih (incrementNonce nonce) ((d :: ds).drop chunkSize) h1
      have h3 : ((d :: ds).take chunkSize).length + ((d :: ds).drop chunkSize).length
          = (d :: ds).length := by
        rw [← List.length_append, List.take_append_drop]
      omega

/-- Round trip of the chunk loops: decrypting what the encryption loop
sealed, under the same key and starting nonce, recovers the plaintext. -/
theorem decryptLoop_encryptLoop (A : AEAD) (key : Nat) :
    ∀ (fuelE fuelD : Nat) (nonce data : Bytes),
      data.length ≤ fuelE → data.length ≤ fuelD →
      decryptLoop A key fuelD nonce (encryptLoop A key fuelE nonce data) =
        .ok data := by
  intro fuelE
  induction fuelE with
  | zero =>
    intro fuelD nonce data hE _
    have : data = [] := List.length_eq_zero.mp (Nat.le_zero.mp hE)
    subst this
    simp [encryptLoop, decryptLoop]
  | succ f ih =>
    intro fuelD nonce data hE hD
    match data with
    | [] => simp [encryptLoop, decryptLoop]
    | d :: ds =>
      have hfd : ∃ f', fuelD = f' + 1 := by
        rcases fuelD with _ | f'
        · simp at hD
        · exact ⟨f', rfl⟩
      rcases hfd with ⟨f', rfl⟩
      simp only [encryptLoop]
      have hseal := A.seal_length key nonce ((d :: ds).take chunkSize)
      -- the sealed first chunk is nonempty, so the decryption loop
      -- enters its main branch
      have hne : A.Seal key nonce ((d :: ds).take chunkSize) ++
          encryptLoop A key f (incrementNonce nonce) ((d :: ds).drop chunkSize) ≠ [] := by
        intro hcontra
        rcases List.append_eq_nil.mp hcontra with ⟨h1, _⟩
        have := A.overhead_pos
        rw [h1] at hseal
        simp at hseal
        omega
      by_cases hlen : (d :: ds).length ≤ chunkSize
      · -- last chunk: everything fits in one sealed block
        have htake : (d :: ds).take chunkSize = d :: ds :=
          List.take_of_length_le hlen
        have hdropnil : (d :: ds).drop chunkSize = [] :=
          List.drop_eq_nil_of_le hlen
        rw [htake, hdropnil] at hne ⊢
        simp only [encryptLoop, List.append_nil] at hne ⊢
        rw [decryptLoop_cons_eq A key f' nonce _ hne]
        have hget : (A.Seal key nonce (d :: ds)).take (chunkSize + A.overhead) =
            A.Seal key nonce (d :: ds) := by
          apply List.take_of_length_le
          rw [A.seal_length]
          omega
        have hdrop2 : (A.Seal key nonce (d :: ds)).drop (chunkSize + A.overhead) = [] := by
          apply List.drop_eq_nil_of_le
          rw [A.seal_length]
          omega
        rw [hget, hdrop2, A.open_seal]
        simp [decryptLoop]
      · -- full chunk: the sealed block is exactly the read size
        push_neg at hlen
        have hfull : ((d :: ds).take chunkSize).length = chunkSize := by
          simp only [List.length_take]
          omega
        have hblk : (A.Seal key nonce ((d :: ds).take chunkSize)).length =
            chunkSize + A.overhead := by
          rw [A.seal_length, hfull]
        rw [decryptLoop_cons_eq A key f' nonce _ hne]
        rw [← hblk, List.take_left, List.drop_left]
        have hcs : chunkSize = 65536 := rfl
        have hrec := ih f' (incrementNonce nonce) ((d :: ds).drop chunkSize)
          (by simp only [List.length_drop]; omega)
          (by simp only [List.length_drop]; omega)
        rw [A.open_seal, hrec]
        simp [List.take_append_drop]

/-- Opening the first sealed chunk under a different key fails
authentication, so the whole decryption loop errors. -/
theorem decryptLoop_encryptLoop_wrong_key (A : AEAD) (key key' : Nat)
    (hk : key' ≠ key) (fuelE fuelD : Nat) (nonce nonce' data : Bytes)
    (hdata : data ≠ []) (hfE : 1 ≤ fuelE) (hfD : 1 ≤ fuelD) :
    decryptLoop A key' fuelD nonce' (encryptLoop A key fuelE nonce data) =
      .error "ошибка расшифровки блока" := by
  match data, hdata with
  | d :: ds, _ =>
    rcases Nat.exists_eq_add_of_le hfE with ⟨fE, rfl⟩
    rcases Nat.exists_eq_add_of_le hfD with ⟨fD, rfl⟩
    rw [Nat.add_comm 1 fE, Nat.add_comm 1 fD]
    simp only [encryptLoop]
    have hseal := A.seal_length key nonce ((d :: ds).take chunkSize)
    have hov := A.overhead_pos
    have hne : A.Seal key nonce ((d :: ds).take chunkSize) ++
        encryptLoop A key fE (incrementNonce nonce) ((d :: ds).drop chunkSize) ≠ [] := by
      intro hcontra
      rcases List.append_eq_nil.mp hcontra with ⟨h1, _⟩
      rw [h1] at hseal
      simp at hseal
      omega
    rw [decryptLoop_cons_eq A key' fD nonce' _ hne]
    by_cases hlen : (d :: ds).length ≤ chunkSize
    · have htake : (d :: ds).take chunkSize = d :: ds :=
        List.take_of_length_le hlen
      have hdropnil : (d :: ds).drop chunkSize = [] :=
        List.drop_eq_nil_of_le hlen
      rw [htake, hdropnil]
      simp only [encryptLoop, List.append_nil]
      have hget : (A.Seal key nonce (d :: ds)).take (chunkSize + A.overhead) =
          A.Seal key nonce (d :: ds) := by
        apply List.take_of_length_le
        rw [A.seal_length]
        omega
      rw [hget, A.open_wrong_key key key' nonce nonce' (d :: ds) hk]
    · push_neg at hlen
      have hfull : ((d :: ds).take chunkSize).length = chunkSize := by
        simp only [List.length_take]
        omega
      have hblk : (A.Seal key nonce ((d :: ds).take chunkSize)).length =
          chunkSize + A.overhead := by
        rw [A.seal_length, hfull]
      rw [← hblk, List.take_left]
      rw [A.open_wrong_key key key' nonce nonce' _ hk]

/-- Unfolding `decryptFile` applied to the output of `encryptFile`: the
header nonce is read back and the chunk loop runs on the sealed body. -/
theorem decryptFile_encryptFile_unfold (A : AEAD) (derive : String → Nat)
    (pw pw' : String) (nonce data : Bytes) (hn : nonce.length = A.nonceSize) :
    decryptFile A derive pw' (encryptFile A derive pw nonce data) =
      decryptLoop A (derive pw')
        (nonce.length + (encryptLoop A (derive pw) data.length nonce data).length)
        nonce (encryptLoop A (derive pw) data.length nonce data) := by
  simp only [decryptFile, encryptFile, List.length_append]
  rw [← hn, List.take_left, List.drop_left]
  rw [if_neg (by omega)]

/-- C3 (amended): with a nonce of the cipher's nonce size, decryption
with the encrypting passphrase recovers the data exactly; decryption
with a passphrase deriving a different key fails with the block
authentication error whenever the data is nonempty; and a successful
decryption never returns anything but the original data. -/
theorem encryptFile_decryptFile_correct (A : AEAD) (derive : String → Nat)
    (pw pw' : String) (nonce data : Bytes) (hn : nonce.length = A.nonceSize) :
    decryptFile A derive pw (encryptFile A derive pw nonce data) = .ok data ∧
    (derive pw' ≠ derive pw → data ≠ [] →
      decryptFile A derive pw' (encryptFile A derive pw nonce data) =
        .error "ошибка расшифровки блока") ∧
    (∀ d, decryptFile A derive pw' (encryptFile A derive pw nonce data) = .ok d →
      d = data) := by
  have hlen := encryptLoop_length_ge A (derive pw) data.length nonce data (le_refl _)
  have hround : decryptFile A derive pw (encryptFile A derive pw nonce data) =
      .ok data := by
    rw [decryptFile_encryptFile_unfold A derive pw pw nonce data hn]
    exact decryptLoop_encryptLoop A (derive pw) data.length _ nonce data
      (le_refl _) (by omega)
  refine ⟨hround, ?_, ?_⟩
  · intro hkey hdata
    rw [decryptFile_encryptFile_unfold A derive pw pw' nonce data hn]
    have hpos : 1 ≤ data.length := by
      rcases data with _ | ⟨d, ds⟩
      · exact absurd rfl hdata
      · simp
    exact decryptLoop_encryptLoop_wrong_key A (derive pw) (derive pw') hkey
      data.length _ nonce nonce data hdata hpos (by omega)
  · intro d hd
    by_cases hder : derive pw' = derive pw
    · have : decryptFile A derive pw' (encryptFile A derive pw nonce data) =
          decryptFile A derive pw (encryptFile A derive pw nonce data) := by
        rw [decryptFile_encryptFile_unfold A derive pw pw' nonce data hn,
          decryptFile_encryptFile_unfold A derive pw pw nonce data hn, hder]
      rw [this, hround] at hd
      injection hd with h
      exact h.symm
    · by_cases hnil : data = []
      · -- empty data: the ciphertext is the bare nonce, which decrypts
        -- to the empty plaintext under any key
        subst hnil
        rw [decryptFile_encryptFile_unfold A derive pw pw' nonce [] hn] at hd
        simp only [encryptLoop, List.length_nil, Nat.add_zero] at hd
        simp [decryptLoop] at hd
        exact hd
      · have hpos : 1 ≤ data.length := by
          rcases data with _ | ⟨d0, ds⟩
          · exact absurd rfl hnil
          · simp
        have herr : decryptFile A derive pw' (encryptFile A derive pw nonce data) =
            .error "ошибка расшифровки блока" := by
          rw [decryptFile_encryptFile_unfold A derive pw pw' nonce data hn]
          exact decryptLoop_encryptLoop_wrong_key A (derive pw) (derive pw') hder
            data.length _ nonce nonce data hnil hpos (by omega)
        rw [herr] at hd
        cases hd

/-- A concrete cipher satisfying the `AEAD` contract, used to exercise
the encryption theorems: sealing prepends the key as a one-byte tag. -/
def toyAEAD : AEAD where
  nonceSize := 12
  overhead := 1
  Seal := fun k _ pt => k :: pt
  Open := fun k _ ct =>
    match ct with
    | [] => none
    | b :: rest => if b = k then some rest else none
  seal_length := by intro k n pt; simp
  open_seal := by intro k n pt; simp
  open_wrong_key := by
    intro k k' n n' pt hk
    simp only
    rw [if_neg (fun h => hk h.symm)]
  overhead_pos := by decide

/-- A concrete key-derivation function for the witnesses. -/
def toyDerive (s : String) : Nat :=
  (s.data.map Char.toNat).sum

/-- C3 counterexample: for the empty byte sequence, decrypting with a
different passphrase (deriving a different key) does not fail — it
succeeds, because the encrypted file is the bare nonce and the
decryption loop never authenticates anything. -/
theorem decrypt_wrong_password_no_auth_error_counterexample :
    toyDerive "qw" ≠ toyDerive "pw" ∧
    decryptFile toyAEAD toyDerive "qw"
      (encryptFile toyAEAD toyDerive "pw" (List.replicate 12 0) []) =
        .ok [] :=
  ⟨by decide, rfl⟩

/-- C3 witness: round trip on a concrete nonempty input, and failure of
wrong-passphrase decryption on the same input. -/
theorem encryptFile_decryptFile_correct_witness :
    decryptFile toyAEAD toyDerive "pw"
        (encryptFile toyAEAD toyDerive "pw" (List.replicate 12 0) [1, 2, 3]) =
      .ok [1, 2, 3] ∧
    decryptFile toyAEAD toyDerive "qw"
        (encryptFile toyAEAD toyDerive "pw" (List.replicate 12 0) [1, 2, 3]) =
      .error "ошибка расшифровки блока" :=
  let h := encryptFile_decryptFile_correct toyAEAD toyDerive "pw" "qw"
    (List.replicate 12 0) [1, 2, 3] (by decide)
  ⟨h.1, h.2.1 (by decide) (by decide)⟩

/-! ## Catalog (SQLite database, source part_002)

The four tables are lists of row records; `DATETIME` values are ticks
(`Nat`), `INTEGER` is `Int`, `REAL` is `ℚ`.  `ORDER BY created_at DESC`
is a stable insertion sort on the tick. -/

/-- Row of `backup_policies`. -/
structure PolicyRow where
  id : String
  name : String
  source_path : String
  destination_path : String
  schedule_cron : String
  retention_count : Int
  archive_enabled : Bool
  encryption_enabled : Bool
  encryption_password : String
  created_at : Nat
  updated_at : Nat
  deriving DecidableEq

/-- Row of `backup_jobs`. -/
structure JobRow where
  id : String
  policy_id : String
  status : String
  error : String
  files_processed : Int
  total_size : Int
  backup_path : String
  created_at : Nat
  deriving DecidableEq

/-- Row of `backup_results`. -/
structure ResultRow where
  id : String
  job_id : String
  backup_path : String
  files_processed : Int
  total_size : Int
  compressed_size : Int
  compression_ratio : ℚ
  encrypted : Bool
  compressed : Bool
  checksum : String
  duration_seconds : Int
  deriving DecidableEq

/-- Row of `backup_files`. -/
structure FileRow where
  id : String
  job_id : String
  file_path : String
  relative_path : String
  file_size : Int
  deriving DecidableEq

/-- The whole catalog state. -/
structure Catalog where
  policies : List PolicyRow
  jobs : List JobRow
  results : List ResultRow
  fileRows : List FileRow
  deriving DecidableEq

/-- The in-memory `types.BackupPolicy` struct that queries scan into. -/
structure BackupPolicy where
  id : String
  name : String
  sourcePath : String
  destinationPath : String
  schedule : String
  retentionCount : Int
  archiveEnabled : Bool
  encryptionEnabled : Bool
  encryptionPassword : String
  createdAt : Nat
  updatedAt : Nat
  deriving DecidableEq

/-- Insert into a descending-ordered list (stable). -/
def insertDescBy (key : α → Nat) (x : α) : List α → List α
  | [] => [x]
  | y :: ys => if key y < key x then x :: y :: ys else y :: insertDescBy key x ys

/-- Stable sort, descending by `key` — `ORDER BY key DESC`. -/
def sortDescBy (key : α → Nat) : List α → List α
  | [] => []
  | x :: xs => insertDescBy key x (sortDescBy key xs)

theorem insertDescBy_perm (key : α → Nat) (x : α) :
    ∀ l : List α, List.Perm (insertDescBy key x l) (x :: l) := by
  intro l
  induction l with
  | nil => simp [insertDescBy]
  | cons y ys ih =>
    simp only [insertDescBy]
    split
    · exact List.Perm.refl _
    · exact ((ih.cons y).trans (List.Perm.swap x y ys))

theorem sortDescBy_perm (key : α → Nat) :
    ∀ l : List α, List.Perm (sortDescBy key l) l := by
  intro l
  induction l with
  | nil => simp [sortDescBy]
  | cons x xs ih =>
    exact (insertDescBy_perm key x (sortDescBy key xs)).trans (ih.cons x)

/-- `getAllPolicies`: `SELECT` of every column except
`encryption_password`, ordered by creation time descending; the scanned
struct keeps the Go zero value `""` in `EncryptionPassword`. -/
def getAllPolicies (c : Catalog) : List BackupPolicy :=
  (sortDescBy (fun r => r.created_at) c.policies).map fun r =>
    { id := r.id, name := r.name, sourcePath := r.source_path,
      destinationPath := r.destination_path, schedule := r.schedule_cron,
      retentionCount := r.retention_count, archiveEnabled := r.archive_enabled,
      encryptionEnabled := r.encryption_enabled,
      encryptionPassword := "",
      createdAt := r.created_at, updatedAt := r.updated_at }

/-- `getPolicy`: single-row `SELECT` of all columns, including the
passphrase; a missing id is the distinct not-found error. -/
def getPolicy (c : Catalog) (policyID : String) : Except String BackupPolicy :=
  match c.policies.filter (fun r => r.id == policyID) with
  | [] => .error ("политика с ID " ++ policyID ++ " не найдена")
  | r :: _ =>
    Except.ok
      { id := r.id, name := r.name, sourcePath := r.source_path,
        destinationPath := r.destination_path, schedule := r.schedule_cron,
        retentionCount := r.retention_count, archiveEnabled := r.archive_enabled,
        encryptionEnabled := r.encryption_enabled,
        encryptionPassword := r.encryption_password,
        createdAt := r.created_at, updatedAt := r.updated_at }

/-- `getBackupHistory`: jobs of the policy, newest first, limited. -/
def getBackupHistory (c : Catalog) (policyID : String) (limit : Nat) : List JobRow :=
  (sortDescBy (fun j => j.created_at)
    (c.jobs.filter (fun j => j.policy_id == policyID))).take limit

/-- C10: every policy returned by `getAllPolicies` carries an empty
`EncryptionPassword` — the query never selects the `encryption_password`
column, so the stored passphrase is not exposed by list-all. -/
theorem getAllPolicies_no_password (c : Catalog) (p : BackupPolicy)
    (hp : p ∈ getAllPolicies c) : p.encryptionPassword = "" := by
  rcases List.mem_map.mp hp with ⟨r, _, hr⟩
  rw [← hr]

/-- C10 witness: a catalog whose stored policy row has passphrase
`"secret"` lists that policy with an empty passphrase field. -/
theorem getAllPolicies_no_password_witness :
    ∃ p, p ∈ getAllPolicies
        ⟨[⟨"p1", "n", "/s", "/d", "", 3, true, true, "secret", 5, 5⟩], [], [], []⟩ ∧
      p.encryptionPassword = "" := by
  refine ⟨⟨"p1", "n", "/s", "/d", "", 3, true, true, "", 5, 5⟩, ?_, ?_⟩
  · decide
  · exact getAllPolicies_no_password
      ⟨[⟨"p1", "n", "/s", "/d", "", 3, true, true, "secret", 5, 5⟩], [], [], []⟩
      ⟨"p1", "n", "/s", "/d", "", 3, true, true, "", 5, 5⟩ (by decide)

/-! ## `deletePolicy` (source part_002)

The four `DELETE` statements run inside one transaction.  A SQLite
transaction applies nothing until `Commit`: the model builds the
candidate state step by step and returns the original catalog whenever
the oracle says a step failed (the deferred `Rollback`). -/

/-- The steps of the `deletePolicy` transaction that can fail. -/
inductive DbStep
  | txBegin
  | delFiles
  | delResults
  | delJobs
  | delPolicy
  | txCommit
  deriving DecidableEq

/-- `SELECT id FROM backup_jobs WHERE policy_id = ?` against the current
transaction state. -/
def policyJobIds (c : Catalog) (policyID : String) : List String :=
  (c.jobs.filter (fun j => j.policy_id == policyID)).map (fun j => j.id)

/-- `deletePolicy`: file rows, result rows, job rows, then the policy
row, atomically; `failAt` injects a failure of one step. -/
def deletePolicy (c : Catalog) (policyID : String) (failAt : Option DbStep) :
    Catalog × Option String :=
  if failAt = some .txBegin then (c, some "ошибка начала транзакции") else
  if failAt = some .delFiles then (c, some "ошибка удаления файлов бэкапов") else
  let c1 : Catalog :=
    { c with fileRows :=
        c.fileRows.filter (fun f => !(policyJobIds c policyID).contains f.job_id) }
  if failAt = some .delResults then (c, some "ошибка удаления результатов бэкапов") else
  let c2 : Catalog :=
    { c1 with results :=
        c1.results.filter (fun r => !(policyJobIds c1 policyID).contains r.job_id) }
  if failAt = some .delJobs then (c, some "ошибка удаления задач бэкапов") else
  let c3 : Catalog :=
    { c2 with jobs := c2.jobs.filter (fun j => !(j.policy_id == policyID)) }
  if failAt = some .delPolicy then (c, some "ошибка удаления политики") else
  let c4 : Catalog :=
    { c3 with policies := c3.policies.filter (fun p => !(p.id == policyID)) }
  if failAt = some .txCommit then (c, some "ошибка подтверждения транзакции") else
  (c4, none)

/-- Evaluation of `deletePolicy` when no step fails: every filter is
applied and the commit returns no error. -/
theorem deletePolicy_none_eq (c : Catalog) (pid : String) :
    deletePolicy c pid none =
      ({ policies := c.policies.filter (fun p => !(p.id == pid)),
         jobs := c.jobs.filter (fun j => !(j.policy_id == pid)),
         results := c.results.filter
           (fun r => !(policyJobIds c pid).contains r.job_id),
         fileRows := c.fileRows.filter
           (fun f => !(policyJobIds c pid).contains f.job_id) }, none) := rfl

/-- C5: `deletePolicy` is atomic — on any step failure the catalog is
returned unchanged — and after a successful run no policy row has the
deleted id, no job row references it, and no result or file row
references any of its jobs. -/
theorem deletePolicy_transactional (c : Catalog) (pid : String)
    (failAt : Option DbStep) :
    ((deletePolicy c pid failAt).2.isSome → (deletePolicy c pid failAt).1 = c) ∧
    ((deletePolicy c pid failAt).2 = none →
      (∀ p ∈ (deletePolicy c pid failAt).1.policies, p.id ≠ pid) ∧
      (∀ j ∈ (deletePolicy c pid failAt).1.jobs, j.policy_id ≠ pid) ∧
      (∀ r ∈ (deletePolicy c pid failAt).1.results, r.job_id ∉ policyJobIds c pid) ∧
      (∀ f ∈ (deletePolicy c pid failAt).1.fileRows, f.job_id ∉ policyJobIds c pid)) := by
  rcases failAt with _ | s
  · -- no failure: the transaction commits
    rw [deletePolicy_none_eq]
    constructor
    · intro h
      simp at h
    · intro _
      refine ⟨?_, ?_, ?_, ?_⟩
      · intro p hp
        have := List.of_mem_filter hp
        simpa using this
      · intro j hj
        have := List.of_mem_filter hj
        simpa using this
      · intro r hr
        have := List.of_mem_filter hr
        simpa using this
      · intro f hf
        have := List.of_mem_filter hf
        simpa using this
  · cases s <;> simp [deletePolicy]

/-- C5 witness: a concrete catalog with one policy, one job, one result
row and one file row; the successful run purges every reference and the
`txCommit`-failure run leaves the catalog untouched. -/
theorem deletePolicy_transactional_witness :
    (∀ r ∈ (deletePolicy
        ⟨[⟨"p1", "n", "/s", "/d", "", 1, true, false, "", 0, 0⟩],
         [⟨"j1", "p1", "completed", "", 1, 10, "b", 1⟩],
         [⟨"res1", "j1", "b", 1, 10, 5, 2, false, true, "cafe", 3⟩],
         [⟨"f1", "j1", "/s/a", "a", 10⟩]⟩ "p1" none).1.results,
      r.job_id ∉ policyJobIds
        ⟨[⟨"p1", "n", "/s", "/d", "", 1, true, false, "", 0, 0⟩],
         [⟨"j1", "p1", "completed", "", 1, 10, "b", 1⟩],
         [⟨"res1", "j1", "b", 1, 10, 5, 2, false, true, "cafe", 3⟩],
         [⟨"f1", "j1", "/s/a", "a", 10⟩]⟩ "p1") ∧
    (deletePolicy
        ⟨[⟨"p1", "n", "/s", "/d", "", 1, true, false, "", 0, 0⟩],
         [⟨"j1", "p1", "completed", "", 1, 10, "b", 1⟩],
         [⟨"res1", "j1", "b", 1, 10, 5, 2, false, true, "cafe", 3⟩],
         [⟨"f1", "j1", "/s/a", "a", 10⟩]⟩ "p1" (some .txCommit)).1 =
      ⟨[⟨"p1", "n", "/s", "/d", "", 1, true, false, "", 0, 0⟩],
       [⟨"j1", "p1", "completed", "", 1, 10, "b", 1⟩],
       [⟨"res1", "j1", "b", 1, 10, 5, 2, false, true, "cafe", 3⟩],
       [⟨"f1", "j1", "/s/a", "a", 10⟩]⟩ :=
  ⟨((deletePolicy_transactional _ "p1" none).2 rfl).2.2.1,
   (deletePolicy_transactional _ "p1" (some .txCommit)).1 rfl⟩

/-! ## Retention engine (source part_001, retention file)

The storage backend visible to the retention engine is the list of
present object paths; `Exists` is membership and `Delete` removes a
present object and fails on an absent one (the Local backend semantics,
see `osRemove`).  Database failures inside `deleteBackup`'s transaction
are not injected here: the claims under test concern the success path
and storage effects. -/

/-- `StorageProvider.Exists` on the modelled storage. -/
def storageExists (st : List String) (p : String) : Bool :=
  st.contains p

/-- `StorageProvider.Delete` on the modelled storage. -/
def storageDelete (st : List String) (p : String) : Except String (List String) :=
  if st.contains p then .ok (st.erase p) else .error "объект не найден"

/-- Catalog plus storage, the state the retention engine mutates. -/
structure RetentionState where
  catalog : Catalog
  storage : List String
  deriving DecidableEq

/-- `getBackupsForPolicy`: history (limit 1000), keep completed jobs with
a nonempty artifact path, keep those whose artifact exists in storage. -/
def getBackupsForPolicy (st : RetentionState) (policy : BackupPolicy) : List JobRow :=
  let dbBackups := getBackupHistory st.catalog policy.id 1000
  let successfulBackups := dbBackups.filter
    (fun j => j.status == "completed" && !(j.backup_path == ""))
  successfulBackups.filter (fun j => storageExists st.storage j.backup_path)

/-- `deleteBackup`: remove the artifact from storage, then in one
transaction delete the job's file rows and result rows and set its job
row status to `deleted`. -/
def deleteBackup (st : RetentionState) (job : JobRow) : Except String RetentionState :=
  match storageDelete st.storage job.backup_path with
  | .error e => .error e
  | .ok storage' =>
    .ok { storage := storage',
          catalog :=
            { st.catalog with
                fileRows := st.catalog.fileRows.filter (fun f => !(f.job_id == job.id)),
                results := st.catalog.results.filter (fun r => !(r.job_id == job.id)),
                jobs := st.catalog.jobs.map (fun j =>
                  if j.id == job.id then { j with status := "deleted" } else j) } }

/-- `cleanupOldBackups`: skip when retention is unlimited or the verified
count does not exceed it; otherwise sort descending by creation time,
keep the first `RetentionCount`, delete the rest, skipping (and
continuing past) per-backup failures. -/
def cleanupOldBackups (st : RetentionState) (policy : BackupPolicy) : RetentionState :=
  if policy.retentionCount ≤ 0 then st
  else
    let backups := getBackupsForPolicy st policy
    if (backups.length : Int) ≤ policy.retentionCount then st
    else
      let sorted := sortDescBy (fun j => j.created_at) backups
      let backupsToDelete := sorted.drop policy.retentionCount.toNat
      backupsToDelete.foldl (fun acc b =>
        match deleteBackup acc b with
        | .error _ => acc
        | .ok st' => st') st

/-- Ids of a list of jobs. -/
def jobIdsOf (l : List JobRow) : List String :=
  l.map (fun j => j.id)

/-- Artifact paths of a list of jobs. -/
def jobPathsOf (l : List JobRow) : List String :=
  l.map (fun j => j.backup_path)

/-- Characterization of the deletion fold: when every processed job's
artifact is present and the artifact paths are distinct, each deletion
succeeds, so storage loses exactly those paths, the jobs are marked
`deleted`, and their result and file rows are purged. -/
theorem foldl_deleteBackup_eq :
    ∀ (l : List JobRow) (st : RetentionState),
      (∀ j ∈ l, j.backup_path ∈ st.storage) →
      (jobPathsOf l).Nodup →
      st.storage.Nodup →
      l.foldl (fun acc b =>
        match deleteBackup acc b with
        | .error _ => acc
        | .ok st' => st') st =
      { storage := st.storage.filter (fun p => !(jobPathsOf l).contains p),
        catalog :=
          { policies := st.catalog.policies,
            jobs := st.catalog.jobs.map (fun j =>
              if (jobIdsOf l).contains j.id then { j with status := "deleted" } else j),
            results := st.catalog.results.filter
              (fun r => !(jobIdsOf l).contains r.job_id),
            fileRows := st.catalog.fileRows.filter
              (fun f => !(jobIdsOf l).contains f.job_id) } } := by
  intro l
  induction l with
  | nil =>
    intro st _ _ _
    simp only [List.foldl_nil, jobPathsOf, jobIdsOf, List.map_nil]
    rcases st with ⟨⟨pols, jobs, results, fileRows⟩, storage⟩
    simp [List.filter_true]
  | cons j0 l' ih =>
    intro st hmem hpaths hstore
    have hj0 : j0.backup_path ∈ st.storage := hmem j0 (List.mem_cons_self j0 l')
    have hj0c : st.storage.contains j0.backup_path = true :=
      List.elem_iff.mpr hj0
    have hdel : deleteBackup st j0 =
        .ok { storage := st.storage.erase j0.backup_path,
              catalog :=
                { st.catalog with
                    fileRows := st.catalog.fileRows.filter (fun f => !(f.job_id == j0.id)),
                    results := st.catalog.results.filter (fun r => !(r.job_id == j0.id)),
                    jobs := st.catalog.jobs.map (fun j =>
                      if j.id == j0.id then { j with status := "deleted" } else j) } } := by
      simp only [deleteBackup, storageDelete, hj0c, if_pos]
    have hpaths' : (jobPathsOf l').Nodup := by
      simpa [jobPathsOf] using hpaths.of_cons
    have hj0notin : j0.backup_path ∉ jobPathsOf l' := by
      have := hpaths
      simp only [jobPathsOf, List.map_cons, List.nodup_cons] at this
      simpa [jobPathsOf] using this.1
    simp only [List.foldl_cons, hdel]
    rw [ih _ ?hmem1 hpaths' (hstore.erase _)]
    case hmem1 =>
      intro j hj
      have hne : j.backup_path ≠ j0.backup_path := by
        intro he
        exact hj0notin (he ▸ List.mem_map_of_mem (fun x => x.backup_path) hj)
      exact (List.mem_erase_of_ne hne).mpr (hmem j (List.mem_cons_of_mem j0 hj))
    -- componentwise equality of the resulting states
    have hstorage : (st.storage.erase j0.backup_path).filter
        (fun p => !(jobPathsOf l').contains p) =
        st.storage.filter (fun p => !(jobPathsOf (j0 :: l')).contains p) := by
      rw [hstore.erase_eq_filter, List.filter_filter]
      apply List.filter_congr
      intro a _
      simp only [jobPathsOf, List.map_cons, List.contains_cons, Bool.not_or, bne]
      exact Bool.and_comm _ _
    have hjobs : (st.catalog.jobs.map (fun j =>
          if j.id == j0.id then { j with status := "deleted" } else j)).map
        (fun j => if (jobIdsOf l').contains j.id then { j with status := "deleted" } else j) =
        st.catalog.jobs.map (fun j =>
          if (jobIdsOf (j0 :: l')).contains j.id then { j with status := "deleted" } else j) := by
      rw [List.map_map]
      apply List.map_eq_map_iff.mpr
      intro x _
      simp only [Function.comp_apply, jobIdsOf, List.map_cons, List.contains_cons]
      by_cases hx : x.id = j0.id <;> by_cases hcx : x.id ∈ l'.map (fun j => j.id) <;>
        simp [hx, hcx]
    have hresults : (st.catalog.results.filter (fun r => !(r.job_id == j0.id))).filter
        (fun r => !(jobIdsOf l').contains r.job_id) =
        st.catalog.results.filter (fun r => !(jobIdsOf (j0 :: l')).contains r.job_id) := by
      rw [List.filter_filter]
      apply List.filter_congr
      intro r _
      simp only [jobIdsOf, List.map_cons, List.contains_cons, Bool.not_or]
      exact Bool.and_comm _ _
    have hfiles : (st.catalog.fileRows.filter (fun f => !(f.job_id == j0.id))).filter
        (fun f => !(jobIdsOf l').contains f.job_id) =
        st.catalog.fileRows.filter (fun f => !(jobIdsOf (j0 :: l')).contains f.job_id) := by
      rw [List.filter_filter]
      apply List.filter_congr
      intro f _
      simp only [jobIdsOf, List.map_cons, List.contains_cons, Bool.not_or]
      exact Bool.and_comm _ _
    simp only at hstorage hjobs hresults hfiles ⊢
    rw [hstorage, hjobs, hresults, hfiles]

theorem contains_iff_mem {α} [BEq α] [LawfulBEq α] (l : List α) (a : α) :
    l.contains a = true ↔ a ∈ l := List.elem_iff

theorem contains_false_iff_not_mem {α} [BEq α] [LawfulBEq α] (l : List α) (a : α) :
    l.contains a = false ↔ a ∉ l := by
  rw [← contains_iff_mem l a]
  cases l.contains a <;> simp

/-- A backup the engine verified is one whose artifact is present. -/
theorem mem_storage_of_mem_getBackupsForPolicy (st : RetentionState)
    (policy : BackupPolicy) (j : JobRow) (hj : j ∈ getBackupsForPolicy st policy) :
    j.backup_path ∈ st.storage := by
  simp only [getBackupsForPolicy] at hj
  have := List.of_mem_filter hj
  exact (contains_iff_mem _ _).mp this

/-- `cleanupOldBackups`, under a positive retention exceeded by the
verified count, is exactly the deletion fold over the sorted tail. -/
theorem cleanupOldBackups_eq_foldl (st : RetentionState) (policy : BackupPolicy)
    (K : Nat) (hK : policy.retentionCount = (K : Int)) (hKpos : 0 < K)
    (hN : K < (getBackupsForPolicy st policy).length) :
    cleanupOldBackups st policy =
      ((sortDescBy (fun j => j.created_at) (getBackupsForPolicy st policy)).drop K).foldl
        (fun acc b =>
          match deleteBackup acc b with
          | .error _ => acc
          | .ok st' => st') st := by
  simp only [cleanupOldBackups]
  rw [hK, if_neg (by omega), if_neg (by omega)]
  norm_num

/-- C1 (amended): with retention K > 0, more than K verified completed
backups, distinct creation times, pairwise distinct artifact paths and
duplicate-free storage, `cleanupOldBackups` deletes exactly the
`N − K` oldest verified backups — their artifacts leave storage, their
result and file rows are purged, their job rows are marked `deleted` —
while the K newest artifacts all remain in storage. -/
theorem cleanupOldBackups_retention_correct (st : RetentionState)
    (policy : BackupPolicy) (K : Nat)
    (hK : policy.retentionCount = (K : Int)) (hKpos : 0 < K)
    (hN : K < (getBackupsForPolicy st policy).length)
    (htimes : ((getBackupsForPolicy st policy).map (fun j => j.created_at)).Nodup)
    (hpaths : (jobPathsOf (getBackupsForPolicy st policy)).Nodup)
    (hstore : st.storage.Nodup) :
    ((sortDescBy (fun j => j.created_at) (getBackupsForPolicy st policy)).drop K).length
        = (getBackupsForPolicy st policy).length - K ∧
    (∀ j ∈ (sortDescBy (fun j => j.created_at) (getBackupsForPolicy st policy)).drop K,
      j.backup_path ∉ (cleanupOldBackups st policy).storage) ∧
    (∀ j ∈ (sortDescBy (fun j => j.created_at) (getBackupsForPolicy st policy)).take K,
      j.backup_path ∈ (cleanupOldBackups st policy).storage) ∧
    (cleanupOldBackups st policy).catalog.jobs = st.catalog.jobs.map (fun j =>
      if (jobIdsOf ((sortDescBy (fun j2 => j2.created_at)
          (getBackupsForPolicy st policy)).drop K)).contains j.id
      then { j with status := "deleted" } else j) ∧
    (cleanupOldBackups st policy).catalog.results = st.catalog.results.filter
      (fun r => !(jobIdsOf ((sortDescBy (fun j2 => j2.created_at)
        (getBackupsForPolicy st policy)).drop K)).contains r.job_id) ∧
    (cleanupOldBackups st policy).catalog.fileRows = st.catalog.fileRows.filter
      (fun f => !(jobIdsOf ((sortDescBy (fun j2 => j2.created_at)
        (getBackupsForPolicy st policy)).drop K)).contains f.job_id) ∧
    (cleanupOldBackups st policy).catalog.policies = st.catalog.policies := by
  have hperm := sortDescBy_perm (fun j => j.created_at) (getBackupsForPolicy st policy)
  have hsortednodup : (jobPathsOf (sortDescBy (fun j => j.created_at)
      (getBackupsForPolicy st policy))).Nodup := by
    simp only [jobPathsOf]
    exact ((hperm.map (fun j => j.backup_path)).nodup_iff).mpr
      (by simpa [jobPathsOf] using hpaths)
  have hmem1 : ∀ j ∈ (sortDescBy (fun j => j.created_at)
      (getBackupsForPolicy st policy)).drop K, j.backup_path ∈ st.storage := by
    intro j hj
    exact mem_storage_of_mem_getBackupsForPolicy st policy j
      (hperm.mem_iff.mp (List.mem_of_mem_drop hj))
  have hnodup1 : (jobPathsOf ((sortDescBy (fun j => j.created_at)
      (getBackupsForPolicy st policy)).drop K)).Nodup := by
    simp only [jobPathsOf] at hsortednodup ⊢
    rw [List.map_drop]
    exact hsortednodup.sublist (List.drop_sublist K _)
  have hfold := foldl_deleteBackup_eq
    ((sortDescBy (fun j => j.created_at) (getBackupsForPolicy st policy)).drop K)
    st hmem1 hnodup1 hstore
  have hcl := cleanupOldBackups_eq_foldl st policy K hK hKpos hN
  rw [hcl, hfold]
  refine ⟨?_, ?_, ?_, rfl, rfl, rfl, rfl⟩
  · rw [List.length_drop, hperm.length_eq]
  · intro j hj hmemf
    have hcontains := List.of_mem_filter hmemf
    have : (jobPathsOf ((sortDescBy (fun j2 => j2.created_at)
        (getBackupsForPolicy st policy)).drop K)).contains j.backup_path = true :=
      (contains_iff_mem _ _).mpr
        (List.mem_map_of_mem (fun x => x.backup_path) hj)
    rw [this] at hcontains
    cases hcontains
  · intro j hj
    have hinstore : j.backup_path ∈ st.storage :=
      mem_storage_of_mem_getBackupsForPolicy st policy j
        (hperm.mem_iff.mp (List.mem_of_mem_take hj))
    have hdisj : j.backup_path ∉ jobPathsOf ((sortDescBy (fun j2 => j2.created_at)
        (getBackupsForPolicy st policy)).drop K) := by
      have hsplit := List.take_append_drop K
        (sortDescBy (fun j2 => j2.created_at) (getBackupsForPolicy st policy))
      have : (jobPathsOf ((sortDescBy (fun j2 => j2.created_at)
            (getBackupsForPolicy st policy)).take K) ++
          jobPathsOf ((sortDescBy (fun j2 => j2.created_at)
            (getBackupsForPolicy st policy)).drop K)).Nodup := by
        simpa [jobPathsOf, ← List.map_append, hsplit] using hsortednodup
      exact (List.nodup_append.mp this).2.2
        (List.mem_map_of_mem (fun x => x.backup_path) hj)
    apply List.mem_filter.mpr
    refine ⟨hinstore, ?_⟩
    rw [(contains_false_iff_not_mem _ _).mpr hdisj]
    rfl

/-- C1 counterexample: two verified completed backups with distinct
creation times but the same artifact path, retention 1.  Deleting the
oldest removes the shared artifact, so the newest backup — the one the
claim says remains — is no longer retrievable from storage. -/
theorem cleanupOldBackups_shared_path_counterexample :
    (getBackupsForPolicy
        ⟨⟨[], [⟨"j1", "p", "completed", "", 0, 0, "b", 1⟩,
               ⟨"j2", "p", "completed", "", 0, 0, "b", 2⟩], [], []⟩, ["b"]⟩
        ⟨"p", "n", "/s", "/d", "", 1, true, false, "", 0, 0⟩).length = 2 ∧
    ((getBackupsForPolicy
        ⟨⟨[], [⟨"j1", "p", "completed", "", 0, 0, "b", 1⟩,
               ⟨"j2", "p", "completed", "", 0, 0, "b", 2⟩], [], []⟩, ["b"]⟩
        ⟨"p", "n", "/s", "/d", "", 1, true, false, "", 0, 0⟩).map
      (fun j => j.created_at)).Nodup ∧
    (sortDescBy (fun j => j.created_at) (getBackupsForPolicy
        ⟨⟨[], [⟨"j1", "p", "completed", "", 0, 0, "b", 1⟩,
               ⟨"j2", "p", "completed", "", 0, 0, "b", 2⟩], [], []⟩, ["b"]⟩
        ⟨"p", "n", "/s", "/d", "", 1, true, false, "", 0, 0⟩)).take 1 =
      [⟨"j2", "p", "completed", "", 0, 0, "b", 2⟩] ∧
    "b" ∉ (cleanupOldBackups
        ⟨⟨[], [⟨"j1", "p", "completed", "", 0, 0, "b", 1⟩,
               ⟨"j2", "p", "completed", "", 0, 0, "b", 2⟩], [], []⟩, ["b"]⟩
        ⟨"p", "n", "/s", "/d", "", 1, true, false, "", 0, 0⟩).storage := by
  decide

/-- C1 witness: with distinct artifact paths the amended theorem applies;
the kept newest backup's artifact `"b"` survives the cleanup. -/
theorem cleanupOldBackups_retention_correct_witness :
    "b" ∈ (cleanupOldBackups
        ⟨⟨[], [⟨"j1", "p", "completed", "", 0, 0, "a", 1⟩,
               ⟨"j2", "p", "completed", "", 0, 0, "b", 2⟩], [], []⟩, ["a", "b"]⟩
        ⟨"p", "n", "/s", "/d", "", 1, true, false, "", 0, 0⟩).storage :=
  (cleanupOldBackups_retention_correct
    ⟨⟨[], [⟨"j1", "p", "completed", "", 0, 0, "a", 1⟩,
           ⟨"j2", "p", "completed", "", 0, 0, "b", 2⟩], [], []⟩, ["a", "b"]⟩
    ⟨"p", "n", "/s", "/d", "", 1, true, false, "", 0, 0⟩ 1
    (by decide) (by decide) (by decide) (by decide) (by decide) (by decide)).2.2.1
    ⟨"j2", "p", "completed", "", 0, 0, "b", 2⟩ (by decide)

/-! ## Pipeline orchestrator (`ExecuteBackup` / `performBackup`, part_003)

The run-scoped local filesystem is a list of `(path, size)` pairs,
starting from the files the copy phase placed under the fresh temporary
directory.  Outcomes of the external effects (scan, copy, archive,
encrypt, checksum, upload, and the retention engine's own possible
database failure) are oracle fields of `RunEnv`; sizes produced by the
codecs are oracle values too.  The catalog and remote storage live in
`BackupWorld` and are threaded through exactly as the source mutates
them: note that neither `ExecuteBackup` nor `performBackup` ever calls
`saveBackupJob` or `saveBackupResult`. -/

/-- The in-memory `types.BackupJob` struct. -/
structure BackupJob where
  id : String
  policyId : String
  status : String
  error : String
  filesProcessed : Int
  totalSize : Int
  backupPath : String
  deriving DecidableEq

/-- The in-memory `types.BackupResult` struct. -/
structure BackupResult where
  jobId : String
  backupPath : String
  filesProcessed : Int
  totalSize : Int
  compressedSize : Int
  duration : Int
  compressed : Bool
  encrypted : Bool
  compressionRatio : ℚ
  checksum : String
  deriving DecidableEq

/-- Oracle outcomes of one pipeline run's external effects. -/
structure RunEnv where
  tempDir : String
  timestamp : String
  scanErr : Option String
  scanFiles : List String
  scanTotal : Int
  copyErr : Option String
  copiedEntries : List (String × Int)
  archiveErr : Option String
  archiveSize : Int
  encryptErr : Option String
  encryptedSize : Int
  checksumErr : Option String
  checksumValue : String
  uploadErr : Option String
  cleanupErr : Option String
  deriving DecidableEq

/-- Catalog plus remote storage, the durable state of the orchestrator. -/
structure BackupWorld where
  catalog : Catalog
  remote : List String
  deriving DecidableEq

/-- `getDirectorySize` via `filepath.Walk`: the sizes of the file at the
path itself (when it names a regular file) plus every file below it. -/
def getDirectorySize (fs : List (String × Int)) (p : String) : Int :=
  ((fs.filter (fun e => e.1 == p || strStartsWith e.1 (p ++ "/"))).map
    (fun e => e.2)).sum

/-- `getFileSize` via `os.Stat`. -/
def getFileSize (fs : List (String × Int)) (p : String) : Except String Int :=
  match fs.filter (fun e => e.1 == p) with
  | [] => .error "ошибка получения информации о файле"
  | e :: _ => .ok e.2

/-- `strings.ReplaceAll(name, " ", "-")`. -/
def replaceSpaceDash (s : String) : String :=
  String.mk (s.data.map (fun c => if c = ' ' then '-' else c))

/-- `generateBackupName`: dashed policy name plus timestamp. -/
def generateBackupName (policy : BackupPolicy) (timestamp : String) : String :=
  replaceSpaceDash policy.name ++ "-" ++ timestamp

/-- `strings.SplitN(s, "/", 4)`. -/
def splitN4 (s : String) : List String :=
  let segs := strSegs s
  if segs.length ≤ 4 then segs else segs.take 3 ++ [joinSegs (segs.drop 3)]

/-- `generateRemotePath`: bucket-relative key for `s3://`/`gcs://`
destinations, filesystem join otherwise. -/
def generateRemotePath (policy : BackupPolicy) (backupName : String) : String :=
  if strStartsWith policy.destinationPath "s3://" ||
      strStartsWith policy.destinationPath "gcs://" then
    match (splitN4 policy.destinationPath).drop 3 with
    | rest :: _ => rest ++ "/" ++ backupName
    | [] => backupName
  else
    filepathJoin policy.destinationPath backupName

/-- `performBackup`: scan, copy, archive, encrypt, checksum, upload,
then best-effort retention.  Every failure of steps 1–6 aborts with the
wrapped error; a retention failure is only logged.  The returned world
carries the mutated catalog and remote storage. -/
def performBackup (env : RunEnv) (w : BackupWorld) (policy : BackupPolicy) :
    BackupWorld × Except String BackupResult :=
  match env.scanErr with
  | some e => (w, .error ("ошибка сканирования директории: " ++ e))
  | none =>
    match env.copyErr with
    | some e => (w, .error ("ошибка копирования файлов: " ++ e))
    | none =>
      let backupName := generateBackupName policy env.timestamp
      let backupPath := filepathJoin env.tempDir backupName
      let fs1 := env.copiedEntries
      let archStep : Except String (List (String × Int) × String × ℚ × Int) :=
        if policy.archiveEnabled then
          match env.archiveErr with
          | some e => .error ("ошибка архивирования: " ++ e)
          | none =>
            let archivePath := backupPath ++ ".tar.gz"
            let fs2 := (archivePath, env.archiveSize) :: fs1
            -- `backupPath = archivePath` has already happened, so the
            -- "original size" below walks the archive file itself
            match getFileSize fs2 archivePath with
            | .error _ => .ok (fs2, archivePath, 0, 0)
            | .ok compressedSize =>
              .ok (fs2, archivePath,
                (getDirectorySize fs2 archivePath : ℚ) / (compressedSize : ℚ),
                compressedSize)
        else .ok (fs1, backupPath, 0, 0)
      match archStep with
      | .error e => (w, .error e)
      | .ok (fs2, backupPath2, ratio, compressedSize) =>
        let encStep : Except String (List (String × Int) × String) :=
          if policy.encryptionEnabled then
            match env.encryptErr with
            | some e => .error ("ошибка шифрования: " ++ e)
            | none =>
              let encryptedPath := backupPath2 ++ ".enc"
              .ok ((encryptedPath, env.encryptedSize) :: fs2, encryptedPath)
          else .ok (fs2, backupPath2)
        match encStep with
        | .error e => (w, .error e)
        | .ok (_, _) =>
          match env.checksumErr with
          | some e => (w, .error ("ошибка вычисления контрольной суммы: " ++ e))
          | none =>
            let remotePath := generateRemotePath policy backupName
            match env.uploadErr with
            | some e => (w, .error ("ошибка загрузки в хранилище: " ++ e))
            | none =>
              let w1 : BackupWorld := { w with remote := remotePath :: w.remote }
              let w2 : BackupWorld :=
                match env.cleanupErr with
                | some _ => w1
                | none =>
                  let rst := cleanupOldBackups ⟨w1.catalog, w1.remote⟩ policy
                  { catalog := rst.catalog, remote := rst.storage }
              (w2, .ok
                { jobId := "",
                  backupPath := remotePath,
                  filesProcessed := (env.scanFiles.length : Int),
                  totalSize := env.scanTotal,
                  compressedSize := compressedSize,
                  duration := 0,
                  compressed := policy.archiveEnabled,
                  encrypted := policy.encryptionEnabled,
                  compressionRatio := ratio,
                  checksum := env.checksumValue })

/-- `ExecuteBackup`: fetch the policy, run the pipeline, and set the job
to `failed` (with the error) or `completed`. -/
def ExecuteBackup (env : RunEnv) (w : BackupWorld) (job : BackupJob) :
    BackupWorld × BackupJob × Except String BackupResult :=
  match getPolicy w.catalog job.policyId with
  | .error e => (w, job, .error ("ошибка получения политики: " ++ e))
  | .ok policy =>
    let job1 : BackupJob := { job with status := "running" }
    match performBackup env w policy with
    | (w', .error e) =>
      (w', { job1 with status := "failed", error := e }, .error e)
    | (w', .ok result) =>
      (w', { job1 with status := "completed" },
        .ok { result with jobId := job.id })

/-- Marking one job `deleted` keeps every job id. -/
theorem jobIdsOf_map_mark (jobs : List JobRow) (jid : String) :
    jobIdsOf (jobs.map (fun j =>
      if j.id == jid then { j with status := "deleted" } else j)) = jobIdsOf jobs := by
  simp only [jobIdsOf, List.map_map]
  apply List.map_eq_map_iff.mpr
  intro x _
  by_cases hx : x.id = jid <;> simp [hx]

/-- The retention engine never inserts rows: job ids are preserved and
the surviving result rows were already present. -/
theorem cleanupOldBackups_preserves (st : RetentionState) (policy : BackupPolicy) :
    jobIdsOf (cleanupOldBackups st policy).catalog.jobs = jobIdsOf st.catalog.jobs ∧
    (∀ r ∈ (cleanupOldBackups st policy).catalog.results, r ∈ st.catalog.results) := by
  have hgen : ∀ (l : List JobRow) (st0 : RetentionState),
      jobIdsOf ((l.foldl (fun acc b =>
        match deleteBackup acc b with
        | .error _ => acc
        | .ok st' => st') st0).catalog.jobs) = jobIdsOf st0.catalog.jobs ∧
      ∀ r ∈ (l.foldl (fun acc b =>
        match deleteBackup acc b with
        | .error _ => acc
        | .ok st' => st') st0).catalog.results, r ∈ st0.catalog.results := by
    intro l
    induction l with
    | nil => intro st0; exact ⟨rfl, fun r hr => hr⟩
    | cons b l' ih =>
      intro st0
      simp only [List.foldl_cons]
      rcases hd : deleteBackup st0 b with e | st1
      · simp only [hd]
        exact ih st0
      · simp only [hd]
        have hih := ih st1
        have hst1 : st1.catalog.jobs = st0.catalog.jobs.map (fun j =>
            if j.id == b.id then { j with status := "deleted" } else j) ∧
            st1.catalog.results = st0.catalog.results.filter
              (fun r => !(r.job_id == b.id)) := by
          simp only [deleteBackup] at hd
          rcases hsd : storageDelete st0.storage b.backup_path with e' | s'
          · rw [hsd] at hd; cases hd
          · rw [hsd] at hd
            simp only [Except.ok.injEq] at hd
            rw [← hd]
            exact ⟨rfl, rfl⟩
        constructor
        · rw [hih.1, hst1.1, jobIdsOf_map_mark]
        · intro r hr
          have := hih.2 r hr
          rw [hst1.2] at this
          exact List.mem_of_mem_filter this
  simp only [cleanupOldBackups]
  split
  · exact ⟨rfl, fun r hr => hr⟩
  · split
    · exact ⟨rfl, fun r hr => hr⟩
    · exact hgen _ st

/-- Whatever happens during a run, every job row in the resulting world
keeps an id the catalog already had, and every result row was already
present: `performBackup` writes neither table. -/
theorem performBackup_catalog (env : RunEnv) (w : BackupWorld)
    (policy : BackupPolicy) :
    (∀ jr ∈ (performBackup env w policy).1.catalog.jobs,
      jr.id ∈ jobIdsOf w.catalog.jobs) ∧
    (∀ r ∈ (performBackup env w policy).1.catalog.results,
      r ∈ w.catalog.results) := by
  have hclean := cleanupOldBackups_preserves
    ⟨w.catalog, generateRemotePath policy (generateBackupName policy env.timestamp)
      :: w.remote⟩ policy
  simp only [performBackup]
  repeat' split
  all_goals
    first
    | exact ⟨fun jr hjr => List.mem_map_of_mem (fun j => j.id) hjr,
        fun r hr => hr⟩
    | (refine ⟨fun jr hjr => ?_, fun r hr => hclean.2 r hr⟩
       have : jr.id ∈ jobIdsOf (cleanupOldBackups
           ⟨w.catalog, generateRemotePath policy
             (generateBackupName policy env.timestamp) :: w.remote⟩ policy).catalog.jobs :=
         List.mem_map_of_mem (fun j => j.id) hjr
       rw [hclean.1] at this
       exact this)

/-- C2: the pipeline persists nothing — after `ExecuteBackup`, a job id
absent from `backup_jobs` beforehand is still absent, and no
`backup_results` row for it exists; steps 7's `saveBackupJob` and
`saveBackupResult` are never invoked. -/
theorem executeBackup_persists_no_rows (env : RunEnv) (w : BackupWorld)
    (job : BackupJob)
    (hjob : job.id ∉ jobIdsOf w.catalog.jobs)
    (hres : ∀ r ∈ w.catalog.results, r.job_id ≠ job.id) :
    (∀ jr ∈ (ExecuteBackup env w job).1.catalog.jobs, jr.id ≠ job.id) ∧
    (∀ r ∈ (ExecuteBackup env w job).1.catalog.results, r.job_id ≠ job.id) := by
  rcases hp : getPolicy w.catalog job.policyId with e | policy
  · simp only [ExecuteBackup, hp]
    constructor
    · intro jr hjr he
      exact hjob (he ▸ List.mem_map_of_mem (fun j => j.id) hjr)
    · exact hres
  · have hcat := performBackup_catalog env w policy
    simp only [ExecuteBackup, hp]
    rcases hpb : performBackup env w policy with ⟨w', r⟩
    rw [hpb] at hcat
    rcases r with e | result
    · simp only
      constructor
      · intro jr hjr he
        exact hjob (he ▸ hcat.1 jr hjr)
      · intro r hr
        exact hres r (hcat.2 r hr)
    · simp only
      constructor
      · intro jr hjr he
        exact hjob (he ▸ hcat.1 jr hjr)
      · intro r hr
        exact hres r (hcat.2 r hr)

/-- C2 witness: a fresh job against a one-policy catalog; after the run
(whatever its outcome) no `backup_jobs` or `backup_results` row carries
the job's id. -/
theorem executeBackup_persists_no_rows_witness :
    (∀ jr ∈ (ExecuteBackup
        ⟨"/tmp/backup-1", "20240101-000000", none, ["f"], 10, none,
          [("/tmp/backup-1/n-20240101-000000/f", 10)], none, 5, none, 5,
          none, "cafe", none, none⟩
        ⟨⟨[⟨"p1", "n", "/s", "/d", "", 1, true, false, "", 0, 0⟩], [], [], []⟩, []⟩
        ⟨"jobX", "p1", "pending", "", 0, 0, ""⟩).1.catalog.jobs,
      jr.id ≠ "jobX") ∧
    (∀ r ∈ (ExecuteBackup
        ⟨"/tmp/backup-1", "20240101-000000", none, ["f"], 10, none,
          [("/tmp/backup-1/n-20240101-000000/f", 10)], none, 5, none, 5,
          none, "cafe", none, none⟩
        ⟨⟨[⟨"p1", "n", "/s", "/d", "", 1, true, false, "", 0, 0⟩], [], [], []⟩, []⟩
        ⟨"jobX", "p1", "pending", "", 0, 0, ""⟩).1.catalog.results,
      r.job_id ≠ "jobX") :=
  executeBackup_persists_no_rows
    ⟨"/tmp/backup-1", "20240101-000000", none, ["f"], 10, none,
      [("/tmp/backup-1/n-20240101-000000/f", 10)], none, 5, none, 5,
      none, "cafe", none, none⟩
    ⟨⟨[⟨"p1", "n", "/s", "/d", "", 1, true, false, "", 0, 0⟩], [], [], []⟩, []⟩
    ⟨"jobX", "p1", "pending", "", 0, 0, ""⟩ (by decide) (by decide)

/-- When the external steps 1–6 all succeed, the pipeline returns a
result (whatever the retention oracle says). -/
theorem performBackup_ok (env : RunEnv) (w : BackupWorld) (policy : BackupPolicy)
    (hscan : env.scanErr = none) (hcopy : env.copyErr = none)
    (harch : env.archiveErr = none) (henc : env.encryptErr = none)
    (hchk : env.checksumErr = none) (hup : env.uploadErr = none) :
    ∃ w' res, performBackup env w policy = (w', .ok res) := by
  cases hae : policy.archiveEnabled <;> cases hee : policy.encryptionEnabled <;>
    cases hce : env.cleanupErr <;>
    cases hgf : getFileSize
      ((filepathJoin env.tempDir (generateBackupName policy env.timestamp) ++ ".tar.gz",
          env.archiveSize) :: env.copiedEntries)
      (filepathJoin env.tempDir (generateBackupName policy env.timestamp) ++ ".tar.gz") <;>
    simp [performBackup, hscan, hcopy, harch, henc, hchk, hup, hae, hee, hce, hgf]

/-- C6: with pipeline steps 1–6 successful and the policy present, the
job completes and a result is returned, for every value of the
retention-engine outcome oracle (`env.cleanupErr` and the retention
effects are unconstrained). -/
theorem executeBackup_retention_failure_not_propagated (env : RunEnv)
    (w : BackupWorld) (job : BackupJob) (policy : BackupPolicy)
    (hpol : getPolicy w.catalog job.policyId = .ok policy)
    (hscan : env.scanErr = none) (hcopy : env.copyErr = none)
    (harch : env.archiveErr = none) (henc : env.encryptErr = none)
    (hchk : env.checksumErr = none) (hup : env.uploadErr = none) :
    (∃ res, (ExecuteBackup env w job).2.2 = .ok res) ∧
    (ExecuteBackup env w job).2.1.status = "completed" := by
  obtain ⟨w', res, hpb⟩ := performBackup_ok env w policy hscan hcopy harch henc hchk hup
  simp only [ExecuteBackup, hpol, hpb]
  exact ⟨⟨_, rfl⟩, trivial⟩

/-- C6 witness: a concrete successful run with the retention oracle set
to fail (`cleanupErr = some`): the job is still completed. -/
theorem executeBackup_retention_failure_not_propagated_witness :
    (∃ res, (ExecuteBackup
        ⟨"/tmp/backup-1", "20240101-000000", none, ["f"], 10, none,
          [("/tmp/backup-1/n-20240101-000000/f", 10)], none, 5, none, 5,
          none, "cafe", none, some "ошибка очистки"⟩
        ⟨⟨[⟨"p1", "n", "/s", "/d", "", 1, true, false, "", 0, 0⟩], [], [], []⟩, []⟩
        ⟨"jobX", "p1", "pending", "", 0, 0, ""⟩).2.2 = .ok res) ∧
    (ExecuteBackup
        ⟨"/tmp/backup-1", "20240101-000000", none, ["f"], 10, none,
          [("/tmp/backup-1/n-20240101-000000/f", 10)], none, 5, none, 5,
          none, "cafe", none, some "ошибка очистки"⟩
        ⟨⟨[⟨"p1", "n", "/s", "/d", "", 1, true, false, "", 0, 0⟩], [], [], []⟩, []⟩
        ⟨"jobX", "p1", "pending", "", 0, 0, ""⟩).2.1.status = "completed" :=
  executeBackup_retention_failure_not_propagated
    ⟨"/tmp/backup-1", "20240101-000000", none, ["f"], 10, none,
      [("/tmp/backup-1/n-20240101-000000/f", 10)], none, 5, none, 5,
      none, "cafe", none, some "ошибка очистки"⟩
    ⟨⟨[⟨"p1", "n", "/s", "/d", "", 1, true, false, "", 0, 0⟩], [], [], []⟩, []⟩
    ⟨"jobX", "p1", "pending", "", 0, 0, ""⟩
    ⟨"p1", "n", "/s", "/d", "", 1, true, false, "", 0, 0⟩
    rfl rfl rfl rfl rfl rfl rfl

theorem getFileSize_head (p : String) (sz : Int) (rest : List (String × Int)) :
    getFileSize ((p, sz) :: rest) p = .ok sz := by
  simp [getFileSize]

theorem getDirectorySize_head (p : String) (sz : Int) (rest : List (String × Int))
    (hfresh : ∀ e ∈ rest, ¬ e.1 = p ∧ strStartsWith e.1 (p ++ "/") = false) :
    getDirectorySize ((p, sz) :: rest) p = sz := by
  simp only [getDirectorySize]
  have hrest : rest.filter (fun e => e.1 == p || strStartsWith e.1 (p ++ "/")) = [] := by
    apply List.filter_eq_nil_iff.mpr
    intro e he
    simp [(hfresh e he).1, (hfresh e he).2]
  rw [List.filter_cons_of_pos (by simp)]
  rw [hrest]
  simp

/-- Any result the pipeline returns carries compression ratio `1`. -/
theorem performBackup_ratio_of_ok (env : RunEnv) (w : BackupWorld)
    (policy : BackupPolicy)
    (harch : policy.archiveEnabled = true)
    (hsz : env.archiveSize ≠ 0)
    (hscan : env.scanErr = none) (hcopy : env.copyErr = none)
    (haerr : env.archiveErr = none) (hchk : env.checksumErr = none)
    (hup : env.uploadErr = none)
    (hfresh : ∀ e ∈ env.copiedEntries,
      ¬ e.1 = filepathJoin env.tempDir (generateBackupName policy env.timestamp)
          ++ ".tar.gz" ∧
      strStartsWith e.1 ((filepathJoin env.tempDir
          (generateBackupName policy env.timestamp) ++ ".tar.gz") ++ "/") = false) :
    ∀ res, (performBackup env w policy).2 = .ok res → res.compressionRatio = 1 := by
  intro res hres
  have hone : ((env.archiveSize : ℚ)) / ((env.archiveSize : ℚ)) = 1 :=
    div_self (by exact_mod_cast hsz)
  rcases hee : policy.encryptionEnabled <;>
    rcases henc : env.encryptErr with _ | e <;>
    simp [performBackup, hscan, hcopy, haerr, hchk, hup, harch, hee, henc,
      getFileSize_head, getDirectorySize_head _ _ _ hfresh, hone] at hres <;>
    rw [← hres]

/-- C7: when archiving is enabled, the archive has nonzero size and the
pipeline steps succeed, the run returns a result whose recorded
compression ratio is `1` — the "original size" is measured by walking
`backupPath` after it was already reassigned to the archive file, so the
ratio divides the archive size by itself instead of dividing the working
copy's uncompressed size by it. -/
theorem performBackup_compressionRatio_one (env : RunEnv) (w : BackupWorld)
    (policy : BackupPolicy)
    (harch : policy.archiveEnabled = true)
    (hsz : env.archiveSize ≠ 0)
    (hscan : env.scanErr = none) (hcopy : env.copyErr = none)
    (haerr : env.archiveErr = none) (henc : env.encryptErr = none)
    (hchk : env.checksumErr = none) (hup : env.uploadErr = none)
    (hfresh : ∀ e ∈ env.copiedEntries,
      ¬ e.1 = filepathJoin env.tempDir (generateBackupName policy env.timestamp)
          ++ ".tar.gz" ∧
      strStartsWith e.1 ((filepathJoin env.tempDir
          (generateBackupName policy env.timestamp) ++ ".tar.gz") ++ "/") = false) :
    ∃ w' res, performBackup env w policy = (w', .ok res) ∧
      res.compressionRatio = 1 := by
  obtain ⟨w', res, hpb⟩ := performBackup_ok env w policy hscan hcopy haerr henc hchk hup
  refine ⟨w', res, hpb, ?_⟩
  exact performBackup_ratio_of_ok env w policy harch hsz hscan hcopy haerr hchk hup
    hfresh res (by rw [hpb])

/-- C7 witness: a working copy of total size 100 archived into a 50-byte
file still produces a result whose compression ratio is 1 (the claimed
value would be 2). -/
theorem performBackup_compressionRatio_one_witness :
    ∃ w' res, performBackup
        ⟨"/tmp/backup-1", "20240101-000000", none, ["f"], 100, none,
          [("/tmp/backup-1/n-20240101-000000/f", 100)], none, 50, none, 50,
          none, "cafe", none, none⟩
        ⟨⟨[], [], [], []⟩, []⟩
        ⟨"p1", "n", "/s", "/d", "", 1, true, false, "", 0, 0⟩ = (w', .ok res) ∧
      res.compressionRatio = 1 :=
  performBackup_compressionRatio_one
    ⟨"/tmp/backup-1", "20240101-000000", none, ["f"], 100, none,
      [("/tmp/backup-1/n-20240101-000000/f", 100)], none, 50, none, 50,
      none, "cafe", none, none⟩
    ⟨⟨[], [], [], []⟩, []⟩
    ⟨"p1", "n", "/s", "/d", "", 1, true, false, "", 0, 0⟩
    rfl (by decide) rfl rfl rfl rfl rfl rfl (by decide)

end Backupist
